import Mathlib

/-!
Verification of the annotation parser and snippet-projection engine of
`minted_extract.py` (plus the exercise-marker handling of `package_code.py`).
Python functions are shallowly embedded as executable Lean definitions;
exceptions become `Except` results carrying the exact message strings the
Python code builds.  All definitions use structural recursion so that concrete
runs reduce by `rfl`/`decide`.
-/

namespace MintedExtract

/-! Basic Python string primitives used by the embedded code. -/

/-- Membership scan behind Python's `pat in s` on the character-list level:
true iff `pat` occurs as a contiguous sublist. -/
def containsSubstrL (pat : List Char) : List Char → Bool
  | [] => pat.isEmpty
  | c :: rest => pat.isPrefixOf (c :: rest) || containsSubstrL pat rest

/-- Python `pat in s` (substring containment). -/
def containsSubstr (s pat : String) : Bool :=
  containsSubstrL pat.data s.data

/-- Python `s.startswith(pre)`. -/
def pyStartsWith (s p : String) : Bool :=
  p.data.isPrefixOf s.data

/-- Python `s.endswith(suf)`. -/
def pyEndsWith (s p : String) : Bool :=
  p.data.isSuffixOf s.data

/-- One step of Python's `str.replace` scan, with explicit fuel (the fuel is
always instantiated with the length of the scanned list, which bounds the
number of steps since a replaced pattern is nonempty and consumed whole).
Replaces non-overlapping occurrences left to right, exactly like CPython. -/
def replaceAllGo (pat rep : List Char) : Nat → List Char → List Char
  | _, [] => []
  | 0, l => l
  | fuel + 1, c :: rest =>
    if pat.isPrefixOf (c :: rest) then
      rep ++ replaceAllGo pat rep fuel ((c :: rest).drop pat.length)
    else
      c :: replaceAllGo pat rep fuel rest

/-- Python `code.replace(pat, rep)`: every non-overlapping occurrence is
replaced, scanning left to right.  An empty pattern inserts `rep` around
every character (CPython behaviour). -/
def pyReplace (code pat rep : String) : String :=
  if pat.data.isEmpty then
    String.mk (rep.data ++ (code.data.map (fun c => c :: rep.data)).flatten)
  else
    String.mk (replaceAllGo pat.data rep.data code.data.length code.data)

/-- Characters Python's `str.strip()` removes. -/
def pyIsSpace (c : Char) : Bool :=
  c == ' ' || c == '\t' || c == '\n' || c == '\r' || c == '\x0b' || c == '\x0c'

/-- Python `s.strip()`. -/
def pyStrip (s : String) : String :=
  String.mk (((s.data.dropWhile pyIsSpace).reverse.dropWhile pyIsSpace).reverse)

/-- Python `s.rstrip(" ")`: trailing spaces (only) removed. -/
def rstripSpaces (cs : List Char) : List Char :=
  (cs.reverse.dropWhile (· == ' ')).reverse

/-- Splitting on a newline character, like `String.splitOn "\n"`. -/
def splitNl : List Char → List (List Char)
  | [] => [[]]
  | '\n' :: rest => [] :: splitNl rest
  | c :: rest =>
    match splitNl rest with
    | g :: gs => (c :: g) :: gs
    | [] => [[c]]

/-- Python `s.splitlines()` for `\n`-separated text (the only line ending
appearing in the repository's source files): a trailing newline does not
produce a final empty line, and `"".splitlines() == []`. -/
def pySplitlines (s : String) : List String :=
  if s.data.isEmpty then []
  else
    let parts := splitNl s.data
    (if s.data.getLast? == some '\n' then parts.dropLast else parts).map String.mk

/-- Position of the first occurrence of a character, Python `s.index(c)`
minus the exception (callers turn `none` into `ValueError`). -/
def pyIndex (c : Char) : List Char → Option Nat
  | [] => none
  | x :: rest => if x == c then some 0 else (pyIndex c rest).map (· + 1)

/-- Escape of one character inside a Python `repr` using quote `q`. -/
def pyReprChar (q : Char) (c : Char) : List Char :=
  if c == '\\' then ['\\', '\\']
  else if c == q then ['\\', q]
  else if c == '\n' then ['\\', 'n']
  else if c == '\t' then ['\\', 't']
  else if c == '\r' then ['\\', 'r']
  else [c]

/-- Python `repr` of a string (modelled for printable content: single quotes,
double quotes when the text holds a single quote but no double quote). -/
def pyReprStr (s : String) : String :=
  let q : Char := if s.data.contains '\'' && !(s.data.contains '"') then '"' else '\''
  String.mk (q :: ((s.data.map (pyReprChar q)).flatten ++ [q]))

/-- Python `str` of a list of strings (element reprs, comma separated). -/
def pyReprList (xs : List String) : String :=
  "[" ++ String.intercalate ", " (xs.map pyReprStr) ++ "]"

/-! The token vocabulary and output variants of `minted_extract.py`. -/

/-- Annotation token vocabulary (`class Token` in minted_extract.py). -/
inductive Token where
  | START
  | END
  | HL
  | HL_START
  | HL_END
  | HL_INLINE
  | INLINE_REPLACE
  | JINJA
deriving DecidableEq, Repr

/-- The `value` of each enum member. -/
def Token.value : Token → String
  | .START => "<-"
  | .END => "->"
  | .HL => "!!"
  | .HL_START => "<!"
  | .HL_END => "!>"
  | .HL_INLINE => "||"
  | .INLINE_REPLACE => "s/"
  | .JINJA => "%%"

/-- Python `str(token)` of an enum member, as interpolated into messages. -/
def Token.pyStr : Token → String
  | .START => "Token.START"
  | .END => "Token.END"
  | .HL => "Token.HL"
  | .HL_START => "Token.HL_START"
  | .HL_END => "Token.HL_END"
  | .HL_INLINE => "Token.HL_INLINE"
  | .INLINE_REPLACE => "Token.INLINE_REPLACE"
  | .JINJA => "Token.JINJA"

/-- Lookup by value, Python `Token(token_str)` (`none` models `ValueError`). -/
def Token.fromStr? (s : String) : Option Token :=
  if s == "<-" then some .START
  else if s == "->" then some .END
  else if s == "!!" then some .HL
  else if s == "<!" then some .HL_START
  else if s == "!>" then some .HL_END
  else if s == "||" then some .HL_INLINE
  else if s == "s/" then some .INLINE_REPLACE
  else if s == "%%" then some .JINJA
  else none

/-- Output variants (`class OutputType`). -/
inductive OutputType where
  | CODE
  | SOLUTION
  | SLIDE
  | SELFTEST
deriving DecidableEq, Repr

/-- The `value` of each output type. -/
def OutputType.value : OutputType → String
  | .CODE => "code"
  | .SOLUTION => "solution"
  | .SLIDE => "slide"
  | .SELFTEST => "selftests"

/-! The token-to-option state machine (`tokens_to_minted_opts`). -/

/-- One registered annotation: `(lineno, token, token_args)`. -/
abbrev TokenEntry := Nat × Token × List String

/-- The `_TokenList` alias of the source. -/
abbrev TokenList := List TokenEntry

/-- Embedding of `format_token_list`. -/
def format_token_list (tokens : TokenList) : String :=
  String.intercalate "\n"
    (tokens.map (fun e => toString e.1 ++ ": " ++ e.2.1.value ++ " " ++ String.intercalate ", " e.2.2))

/-- The reduction state of the `tokens_to_minted_opts` loop: the local
variables of the Python generator plus the options yielded so far. -/
structure MintedState where
  hl_start : Option Nat
  hl_ranges : List String
  has_start : Bool
  has_end : Bool
  out : List String
deriving DecidableEq, Repr

/-- State at generator entry. -/
def mintedInit : MintedState :=
  { hl_start := none, hl_ranges := [], has_start := false, has_end := false, out := [] }

/-- The string `"A-B"` recorded for a closed highlight range. -/
def hlRangeStr (a b : Nat) : String :=
  toString a ++ "-" ++ toString b

/-- One iteration of the `for lineno, token, token_args in tokens` loop of
`tokens_to_minted_opts`; `ctx` is the whole token list (interpolated into
error messages) and `snippet` the requested snippet name. -/
def step (snippet : String) (ctx : TokenList) (st : MintedState) (e : TokenEntry) :
    Except String MintedState :=
  match e with
  | (lineno, Token.START, _) =>
    if st.has_start then
      .error ("Multiple start tokens for " ++ snippet ++ " in:\n" ++ format_token_list ctx)
    else
      .ok { st with has_start := true, out := st.out ++ ["firstline=" ++ toString lineno] }
  | (lineno, Token.END, _) =>
    if st.has_end then
      .error ("Multiple end tokens for " ++ snippet ++ " in:\n" ++ format_token_list ctx)
    else
      match st.hl_start with
      | some hs =>
        .ok { st with has_end := true,
                      out := st.out ++ ["lastline=" ++ toString lineno],
                      hl_ranges := st.hl_ranges ++ [hlRangeStr hs lineno],
                      hl_start := none }
      | none =>
        .ok { st with has_end := true, out := st.out ++ ["lastline=" ++ toString lineno] }
  | (lineno, Token.HL, _) =>
    .ok { st with hl_ranges := st.hl_ranges ++ [toString lineno] }
  | (lineno, Token.HL_START, _) =>
    match st.hl_start with
    | some _ => .error ("Nested highlight start at line " ++ toString lineno)
    | none => .ok { st with hl_start := some lineno }
  | (lineno, Token.HL_END, _) =>
    match st.hl_start with
    | none => .error ("Unmatched highlight end at line " ++ toString lineno)
    | some hs =>
      .ok { st with hl_ranges := st.hl_ranges ++ [hlRangeStr hs lineno], hl_start := none }
  | (_, Token.HL_INLINE, _) =>
    .ok { st with out := st.out ++ ["escapeinside=||"] }
  | (_, Token.INLINE_REPLACE, _) =>
    .ok { st with out := st.out ++ ["escapeinside=||"] }
  | (_, Token.JINJA, _) =>
    .error ("Unknown token for minted opts: Token.JINJA")

/-- Running the loop over the remaining entries. -/
def runTokens (snippet : String) (ctx : TokenList) : MintedState → List TokenEntry →
    Except String MintedState
  | st, [] => .ok st
  | st, e :: rest =>
    match step snippet ctx st e with
    | .error msg => .error msg
    | .ok st1 => runTokens snippet ctx st1 rest

/-- The `highlightlines={...}` option built after the loop. -/
def mkHighlightOpt (ranges : List String) : String :=
  "highlightlines=\x7b" ++ String.intercalate "," ranges ++ "\x7d"

/-- The `Missing start/end token ...` message of the terminal check. -/
def missingMsg (st : MintedState) (snippet : String) (ctx : TokenList) : String :=
  "Missing "
    ++ String.intercalate "/"
        ((if st.has_start then [] else ["start"]) ++ (if st.has_end then [] else ["end"]))
    ++ " token for " ++ snippet ++ " in:\n" ++ format_token_list ctx

/-- Embedding of `tokens_to_minted_opts`: the generator fully consumed (as
`main` does via `list(...)`), producing either the yielded option list or
the first raised `Error`'s message. -/
def tokens_to_minted_opts (tokens : TokenList) (snippet : String) : Except String (List String) :=
  match runTokens snippet tokens mintedInit tokens with
  | .error e => .error e
  | .ok st =>
    let out := st.out ++ (if st.hl_ranges.isEmpty then [] else [mkHighlightOpt st.hl_ranges])
    if !st.has_start || !st.has_end then .error (missingMsg st snippet tokens)
    else .ok out

/-- The loop's final state (entry state when the run fails); observer used
to phrase theorems about what the machine accumulated. -/
def minted_state (tokens : TokenList) (snippet : String) : MintedState :=
  match runTokens snippet tokens mintedInit tokens with
  | .ok st => st
  | .error _ => mintedInit

/-- Recognizes the options yielded inside the loop (boundary and escape
options) as opposed to the trailing highlight directive. -/
def isLoopOpt (o : String) : Bool :=
  o == "escapeinside=||" || pyStartsWith o "firstline=" || pyStartsWith o "lastline="

/-- Bool test for a start-boundary entry. -/
def entryIsStart (e : TokenEntry) : Bool :=
  e.2.1 == Token.START

/-- Bool test for an end-boundary entry. -/
def entryIsEnd (e : TokenEntry) : Bool :=
  e.2.1 == Token.END

/-! Snippet-name expansion. -/

/-- Python exceptions escaping the embedded functions: the module's own
`Error`, or a built-in `ValueError` (raised e.g. by `str.index`). -/
inductive PyExc where
  | err (msg : String)
  | valueError (msg : String)
deriving DecidableEq, Repr

/-- Embedding of `expand_snippet_name`: handles snippet names like
`code-changes-[345]`.  `str.index` on a missing character raises
`ValueError("substring not found")`, which the Python code does not catch. -/
def expand_snippet_name (snippet : String) : Except PyExc (List String) :=
  if snippet.data.contains '[' then
    match pyIndex '[' snippet.data, pyIndex ']' snippet.data with
    | some start_idx, some end_idx =>
      .ok (((snippet.data.drop (start_idx + 1)).take (end_idx - (start_idx + 1))).map
        (fun c => String.mk (snippet.data.take start_idx ++ c :: snippet.data.drop (end_idx + 1))))
    | _, _ => .error (.valueError "substring not found")
  else .ok [snippet]

/-! Line classification (`parse_line` and its two regular expressions). -/

/-- The token values, in enum order, as alternated into TOKEN_PAT. -/
def tokenValues : List String :=
  ["<-", "->", "!!", "<!", "!>", "||", "s/", "%%"]

/-- Matcher for the tail of COMMENT_RE after the code group, that is
` *# (TOKEN_PAT) .*`: zero or more spaces, then `# `, then a token value
followed by a space and arbitrary text.  Returns the `comment` group
(everything after the `# `). -/
def commentMatchRest (s : List Char) : Option (List Char) :=
  match s.dropWhile (· == ' ') with
  | '#' :: ' ' :: rest =>
    if tokenValues.any (fun tv => (tv.data ++ [' ']).isPrefixOf rest) then some rest else none
  | _ => none

/-- Backtracking search for the split point of COMMENT_RE: the greedy
`(?P<code>.*)` takes the longest prefix whose remainder matches the comment
tail, so split points are tried from the right. -/
def commentSplitGo (cs : List Char) : Nat → Option (List Char × List Char)
  | 0 =>
    match commentMatchRest cs with
    | some c => some ([], c)
    | none => none
  | k + 1 =>
    match commentMatchRest (cs.drop (k + 1)) with
    | some c => some (cs.take (k + 1), c)
    | none => commentSplitGo cs k

/-- `COMMENT_RE.match(line)`: the `(code, comment)` groups when it matches. -/
def commentSplit (cs : List Char) : Option (List Char × List Char) :=
  commentSplitGo cs cs.length

/-- `EX_MARKER_RE.match(line)`: leading whitespace, `# exercise: [`, then the
greedy `.*` runs the label to the last `]` of the line. -/
def exMarkerMatch (cs : List Char) : Option (List Char) :=
  let s1 := cs.dropWhile pyIsSpace
  if "# exercise: [".data.isPrefixOf s1 then
    let rest := s1.drop "# exercise: [".data.length
    match pyIndex ']' rest.reverse with
    | some j => some (rest.take (rest.length - 1 - j))
    | none => none
  else none

/-- The parsed-line variants of the source (`ParsedLine` / `TokenLine` /
`ExerciseMarkerLine`), as one sum type. -/
inductive ParsedLine where
  | plain (lineno : Nat) (code : String)
  | tokenLine (lineno : Nat) (code : String) (comment : String)
  | exerciseMarker (lineno : Nat) (code : String) (label : String)
deriving DecidableEq, Repr

/-- The `code` field shared by all variants. -/
def ParsedLine.code : ParsedLine → String
  | .plain _ c => c
  | .tokenLine _ c _ => c
  | .exerciseMarker _ c _ => c

/-- `ExerciseMarkerLine.to_solution`: the marker keyword substituted. -/
def ParsedLine.to_solution (p : ParsedLine) : String :=
  pyReplace p.code "exercise:" "solution:"

/-- Embedding of `parse_line`. -/
def parse_line (line : String) (lineno : Nat) : ParsedLine :=
  match commentSplit line.data with
  | some (codePart, commentPart) =>
    .tokenLine lineno (String.mk (rstripSpaces codePart)) (String.mk commentPart)
  | none =>
    match exMarkerMatch line.data with
    | some label => .exerciseMarker lineno line (String.mk label)
    | none => .plain lineno line

/-- The enumeration of `parse_lines` (1-based). -/
def parse_lines_go : Nat → List String → List ParsedLine
  | _, [] => []
  | n, l :: rest => parse_line l n :: parse_lines_go (n + 1) rest

/-- Embedding of `parse_lines`. -/
def parse_lines (code : String) : List ParsedLine :=
  parse_lines_go 1 (pySplitlines code)

/-! The jinja templating pre-processor. -/

/-- The marker prefix, `f"# {Token.JINJA.value} "` = `"# %% "`. -/
def jinja_comment : String := "# " ++ Token.JINJA.value ++ " "

/-- True when a line holds a jinja delimiter (`{{` or `{%`). -/
def has_jinja_syntax (line : String) : Bool :=
  containsSubstr line "\x7b\x7b" || containsSubstr line "\x7b%"

/-- True when the stripped line starts with the jinja marker comment. -/
def is_marker_line (line : String) : Bool :=
  pyStartsWith (pyStrip line) jinja_comment

/-- A comment line carrying jinja delimiters without the marker prefix (the
stray-syntax case, combining the two branch conditions of `jinja_prepare`). -/
def is_stray_line (line : String) : Bool :=
  !(is_marker_line line) && pyStartsWith (pyStrip line) "#" && has_jinja_syntax line

/-- The line loop of `jinja_prepare`: the processed lines plus the
`uses_jinja` flag, or the stray-syntax error. -/
def jinja_go : Nat → List String → Except String (List String × Bool)
  | _, [] => .ok ([], false)
  | lineno, line :: rest =>
    if is_marker_line line then
      match jinja_go (lineno + 1) rest with
      | .error e => .error e
      | .ok (out, _) => .ok (pyReplace line jinja_comment "" :: out, true)
    else if pyStartsWith (pyStrip line) "#" && has_jinja_syntax line then
      .error ("Stray jinja syntax on line " ++ toString lineno ++ ": " ++ line)
    else
      match jinja_go (lineno + 1) rest with
      | .error e => .error e
      | .ok (out, u) => .ok (line :: out, u)

/-- Embedding of `jinja_prepare`. -/
def jinja_prepare (code : String) : Except String (Option String) :=
  match jinja_go 1 (pySplitlines code) with
  | .error e => .error e
  | .ok (out, uses) => .ok (if uses then some (String.intercalate "\n" out) else none)

/-- Embedding of `use_jinja`, decided on the file suffix. -/
def use_jinja (suffix : String) : Bool :=
  suffix == ".py" || suffix == ".ini"

/-- Embedding of `read_code`: the file argument replaced by its raw contents
plus its suffix, and the external jinja2 engine by a `render` function so
that engine-independence of the result expresses "jinja is not invoked". -/
def read_code (render : String → OutputType → String) (suffix : String) (code : String)
    (output_type : OutputType) : Except String String :=
  if use_jinja suffix then
    match jinja_prepare code with
    | .error e => .error e
    | .ok (some jinja_code) => .ok (render jinja_code output_type)
    | .ok none => .ok code
  else .ok code

/-- The `solution` context variable of `jinja_render`:
`output_type in [OutputType.SOLUTION, OutputType.SELFTEST]`. -/
def jinja_solution_var (output_type : OutputType) : Bool :=
  output_type == OutputType.SOLUTION || output_type == OutputType.SELFTEST

/-- The `selftest` context variable of `jinja_render`. -/
def jinja_selftest_var (output_type : OutputType) : Bool :=
  output_type == OutputType.SELFTEST

/-- The `slide` context variable of `jinja_render`. -/
def jinja_slide_var (output_type : OutputType) : Bool :=
  output_type == OutputType.SLIDE

/-! `package_code.process_file` (exercise-marker resolution). -/

/-- Bool test for an exercise-marker line. -/
def isExerciseMarker : ParsedLine → Bool
  | .exerciseMarker .. => true
  | _ => false

/-- The per-line body of `process_file`'s loop: a marker line becomes its
solution form when `solution` is active — which the code sets to
`output_type == OutputType.SOLUTION` — else the `code` text is kept. -/
def clean_parsed_line (output_type : OutputType) (p : ParsedLine) : String :=
  if isExerciseMarker p && (output_type == OutputType.SOLUTION) then p.to_solution
  else p.code

/-- Embedding of `package_code.process_file` on the file's contents
(`none` models the `return None` skip of files without solution markers). -/
def process_file (render : String → OutputType → String) (suffix : String) (raw : String)
    (output_type : OutputType) : Except String (Option String) :=
  match read_code render suffix raw output_type with
  | .error e => .error e
  | .ok code =>
    let parsed := parse_lines code
    let cleaned := parsed.map (clean_parsed_line output_type)
    let has_solution := (output_type == OutputType.SOLUTION) && parsed.any isExerciseMarker
    if (output_type == OutputType.SOLUTION) && !has_solution then .ok none
    else .ok (some (String.intercalate "\n" cleaned ++ "\n"))

/-- Identity renderer, standing in for a jinja engine in concrete runs. -/
def renderId : String → OutputType → String := fun c _ => c

/-! The inline code transformer (`search_replace_code`, `totex`,
`transform_code`). -/

/-- The not-found message of `search_replace_code`. -/
def notFoundMsg (search code : String) (lineno : Nat) : String :=
  "Failed to find " ++ pyReprStr search ++ " in " ++ pyReprStr code
    ++ " (line " ++ toString lineno ++ ")"

/-- The Python `re` module, abstracted: the engine behind the `/.../` branch
of `search_replace_code` (an external library, not code of this repository). -/
structure ReModule where
  compileOk : String → Bool
  searchSome : String → String → Bool
  subAll : String → String → String → String
  errMsg : String → String

/-- Embedding of `search_replace_code`.  A `/.../`-shaped search goes to the
regex engine; otherwise the search is a literal substring: an absent
substring raises the not-found `Error`, a present one is replaced with
Python's `str.replace` (every non-overlapping occurrence). -/
def search_replace_code (rem : ReModule) (code search replace : String) (lineno : Nat) :
    Except String String :=
  if pyStartsWith search "/" && pyEndsWith search "/" then
    let pat := String.mk (search.data.drop 1).dropLast
    if !(rem.compileOk pat) then .error (pyReprStr search ++ ": " ++ rem.errMsg pat)
    else if !(rem.searchSome pat code) then .error (notFoundMsg search code lineno)
    else .ok (rem.subAll pat (pyReplace replace "\\" "\\\\") code)
  else if !(containsSubstr code search) then .error (notFoundMsg search code lineno)
  else .ok (pyReplace code search replace)

/-- The per-character substitution table of `totex`. -/
def texRepl (c : Char) : List Char :=
  if c == '&' then ['\\', '&']
  else if c == '%' then ['\\', '%']
  else if c == '$' then ['\\', '$']
  else if c == '#' then ['\\', '#']
  else if c == '_' then ['\\', '_']
  else if c == '\x7b' then ['\\', '\x7b']
  else if c == '\x7d' then ['\\', '\x7d']
  else if c == '~' then "\\textasciitilde".data ++ ['\x7b', '\x7d']
  else if c == '^' then ['\\', '^', '\x7b', '\x7d']
  else if c == '\\' then "\\textbackslash".data ++ ['\x7b', '\x7d']
  else if c == '\n' then ['\\', '\\']
  else [c]

/-- Embedding of `totex`. -/
def totex (value : String) : String :=
  String.mk (value.data.map texRepl).flatten

/-- The replacement `transform_code` builds for HIGHLIGHT_INLINE:
`|\highlightbox{<escaped search>}|`. -/
def hl_inline_replacement (search : String) : String :=
  "|" ++ "\\highlightbox" ++ "\x7b" ++ totex search ++ "\x7d" ++ "|"

/-- The body of `transform_code`'s inner loop for one inline token on one
line.  The catch-all models the `assert False` (and the tuple-unpacking
error) on shapes that `main`'s arity validation rules out. -/
def apply_inline_token (rem : ReModule) (lineno : Nat) (code : String) :
    Token × List String → Except String String
  | (Token.HL_INLINE, [search]) =>
    search_replace_code rem code search (hl_inline_replacement search) lineno
  | (Token.INLINE_REPLACE, [search, replace]) =>
    search_replace_code rem code search replace lineno
  | _ => .error "AssertionError"

/-- The inline-category tokens registered for one line, in file order (the
defaultdict bucket of `transform_code`). -/
def inline_tokens_for (tokens : TokenList) (lineno : Nat) : List (Token × List String) :=
  (tokens.filter
      (fun e => e.2.1 == Token.HL_INLINE || e.2.1 == Token.INLINE_REPLACE)).filterMap
    (fun e => if e.1 == lineno then some (e.2.1, e.2.2) else none)

/-- One line of `transform_code`: classify it, then fold its inline tokens
over the code text in encounter order. -/
def transform_line (rem : ReModule) (tokens : TokenList) (lineno : Nat) (line : String) :
    Except String String :=
  (inline_tokens_for tokens lineno).foldlM (apply_inline_token rem lineno)
    (parse_line line lineno).code

/-- The line recursion of `transform_code`. -/
def transform_code_go (rem : ReModule) (tokens : TokenList) : Nat → List String →
    Except String (List String)
  | _, [] => .ok []
  | n, line :: rest =>
    match transform_line rem tokens n line with
    | .error e => .error e
    | .ok c =>
      match transform_code_go rem tokens (n + 1) rest with
      | .error e => .error e
      | .ok cs => .ok (c :: cs)

/-- Embedding of `transform_code`. -/
def transform_code (rem : ReModule) (lines : List String) (tokens : TokenList) :
    Except String (List String) :=
  transform_code_go rem tokens 1 lines

/-- A trivial regex engine for concrete runs on literal searches. -/
def remTriv : ReModule :=
  { compileOk := fun _ => true, searchSome := fun _ _ => false,
    subAll := fun _ _ c => c, errMsg := fun _ => "" }

/-! The clause validation of `main` (token lookup and arity check). -/

/-- The arity table of `main`. -/
def token_arg_count : Token → Nat
  | Token.INLINE_REPLACE => 2
  | Token.HL_INLINE => 1
  | _ => 0

/-- The arity-mismatch message of `main`. -/
def arity_error_msg (token : Token) (token_args : List String) (lineno : Nat) : String :=
  "Expected " ++ toString (token_arg_count token) ++ " arguments for " ++ token.pyStr
    ++ ", but got " ++ toString token_args.length ++ ": " ++ pyReprList token_args
    ++ " (line " ++ toString lineno ++ ")"

/-- The token-resolution and arity-validation step of `main`'s clause loop,
on the words already split out of one directive clause. -/
def validate_token_clause (token_str : String) (token_args : List String) (lineno : Nat) :
    Except String Token :=
  match Token.fromStr? token_str with
  | none => .error ("Unknown token: " ++ token_str)
  | some token =>
    if token_args.length != token_arg_count token then
      .error (arity_error_msg token token_args lineno)
    else .ok token

end MintedExtract

namespace MintedExtract

/-! Helper lemmas about the string primitives. -/

theorem data_append (a b : String) : (a ++ b).data = a.data ++ b.data := rfl

theorem pyIndex_eq_none {c : Char} {l : List Char} (h : c ∉ l) : pyIndex c l = none := by
  induction l with
  | nil => rfl
  | cons x rest ih =>
    simp only [pyIndex]
    rw [if_neg, ih (by simp_all)]
    · rfl
    · simp only [beq_iff_eq]
      intro hx
      exact h (hx ▸ List.mem_cons_self x rest)

theorem pyIndex_append_of_not_mem {c : Char} {a : List Char} (h : c ∉ a) (b : List Char) :
    pyIndex c (a ++ b) = (pyIndex c b).map (· + a.length) := by
  induction a with
  | nil => simp
  | cons x rest ih =>
    have hx : ¬(x == c) = true := by
      simp only [beq_iff_eq]
      intro hx
      exact h (hx ▸ List.mem_cons_self x rest)
    have hc : c ∉ rest := fun hm => h (List.mem_cons_of_mem _ hm)
    simp only [List.cons_append, pyIndex, List.append_eq, if_neg hx, ih hc]
    cases pyIndex c b with
    | none => simp
    | some i => simp [List.length_cons]; omega

theorem pyIndex_cons_self (c : Char) (l : List Char) : pyIndex c (c :: l) = some 0 := by
  simp [pyIndex]

theorem contains_eq_false_of_not_mem {c : Char} {l : List Char} (h : c ∉ l) :
    l.contains c = false := by
  simp [h]

/-! C9 and C10: snippet-name expansion. -/

/-- Claim C9: a pattern `pre[chars]suf` (brackets occurring nowhere else in
`pre`, and no closing bracket inside `chars`) expands to one concrete name
per bracket character, in bracket order, each `pre ++ c ++ suf`; a pattern
without `[` expands to the one-element list holding the pattern itself. -/
theorem c9_expand :
    (∀ (snippet : String), '[' ∉ snippet.data →
      expand_snippet_name snippet = .ok [snippet])
    ∧ (∀ (pre chars suf : String),
        '[' ∉ pre.data → ']' ∉ pre.data → ']' ∉ chars.data →
        expand_snippet_name (pre ++ "[" ++ chars ++ "]" ++ suf)
          = .ok (chars.data.map (fun c => pre ++ String.singleton c ++ suf))) := by
  constructor
  · intro snippet h
    rw [expand_snippet_name, if_neg (by simpa using h)]
  · intro pre chars suf hpre hpre' hchars
    have hdata : (pre ++ "[" ++ chars ++ "]" ++ suf).data
        = pre.data ++ '[' :: (chars.data ++ ']' :: suf.data) := by
      simp [data_append]
    have hmem : '[' ∈ (pre ++ "[" ++ chars ++ "]" ++ suf).data := by
      rw [hdata]
      exact List.mem_append_right _ (List.mem_cons_self _ _)
    have hidx1 : pyIndex '[' (pre ++ "[" ++ chars ++ "]" ++ suf).data = some pre.data.length := by
      rw [hdata, pyIndex_append_of_not_mem hpre, pyIndex_cons_self]
      simp
    have hne : ¬('[' == ']') = true := by decide
    have hidx2 : pyIndex ']' (pre ++ "[" ++ chars ++ "]" ++ suf).data
        = some (pre.data.length + chars.data.length + 1) := by
      rw [hdata, pyIndex_append_of_not_mem hpre']
      simp only [pyIndex, if_neg hne]
      rw [pyIndex_append_of_not_mem hchars, pyIndex_cons_self]
      simp only [Option.map_some']
      exact congrArg some (by omega)
    rw [expand_snippet_name, if_pos (by simp [hmem]), hidx1, hidx2]
    have htake : (pre ++ "[" ++ chars ++ "]" ++ suf).data.take pre.data.length = pre.data := by
      rw [hdata]
      exact List.take_left pre.data _
    have hdrop1 : (pre ++ "[" ++ chars ++ "]" ++ suf).data.drop (pre.data.length + 1)
        = chars.data ++ ']' :: suf.data := by
      rw [hdata]
      have : pre.data ++ '[' :: (chars.data ++ ']' :: suf.data)
          = (pre.data ++ ['[']) ++ (chars.data ++ ']' :: suf.data) := by simp
      rw [this]
      have hlen : (pre.data ++ ['[']).length = pre.data.length + 1 := by simp
      rw [← hlen]
      exact List.drop_left _ _
    have hdrop2 : (pre ++ "[" ++ chars ++ "]" ++ suf).data.drop
        (pre.data.length + chars.data.length + 1 + 1) = suf.data := by
      rw [hdata]
      have : pre.data ++ '[' :: (chars.data ++ ']' :: suf.data)
          = (pre.data ++ '[' :: (chars.data ++ [']'])) ++ suf.data := by simp
      rw [this]
      have hlen : (pre.data ++ '[' :: (chars.data ++ [']'])).length
          = pre.data.length + chars.data.length + 1 + 1 := by simp; omega
      rw [← hlen]
      exact List.drop_left _ _
    have harith : pre.data.length + chars.data.length + 1 - (pre.data.length + 1)
        = chars.data.length := by omega
    simp only [harith, htake, hdrop1, hdrop2, List.take_left]
    congr 1
    apply List.map_congr_left
    intro c _
    apply String.ext
    simp [data_append, String.singleton]

/-- Witness for C9 at the spec's own example and a bracket-free name. -/
theorem c9_expand_witness :
    expand_snippet_name "ex-[12]-a" = .ok ["ex-1-a", "ex-2-a"]
    ∧ expand_snippet_name "abc" = .ok ["abc"] := by
  constructor
  · exact c9_expand.2 "ex-" "12" "-a" (by decide) (by decide) (by decide)
  · exact c9_expand.1 "abc" (by decide)

/-- Claim C10: a pattern with `[` but no `]` makes `expand_snippet_name`
raise the built-in `ValueError` from `str.index` (message
"substring not found"), not the module's `Error` type. -/
theorem c10_expand_value_error (snippet : String)
    (hopen : '[' ∈ snippet.data) (hclose : ']' ∉ snippet.data) :
    expand_snippet_name snippet = .error (.valueError "substring not found") := by
  rw [expand_snippet_name, if_pos (by simpa using hopen)]
  rw [pyIndex_eq_none hclose]
  rcases h : pyIndex '[' snippet.data with _ | i <;> rfl

/-- Witness for C10 at the concrete pattern "a[b". -/
theorem c10_expand_value_error_witness :
    expand_snippet_name "a[b" = .error (.valueError "substring not found") :=
  c10_expand_value_error "a[b" (by decide) (by decide)

/-! Lemmas about the token-to-option state machine. -/

theorem runTokens_append (sn : String) (ctx : TokenList) (st : MintedState)
    (l1 l2 : List TokenEntry) :
    runTokens sn ctx st (l1 ++ l2)
      = match runTokens sn ctx st l1 with
        | .ok st1 => runTokens sn ctx st1 l2
        | .error e => .error e := by
  induction l1 generalizing st with
  | nil => simp [runTokens]
  | cons e rest ih =>
    simp only [List.cons_append, runTokens]
    cases hstep : step sn ctx st e with
    | error msg => simp
    | ok st1 => simp [ih]

theorem pyStartsWith_append (p t : String) : pyStartsWith (p ++ t) p = true := by
  simp [pyStartsWith, data_append, List.isPrefixOf_iff_prefix, List.prefix_append]

theorem runTokens_append_ok {sn : String} {ctx : TokenList} {st st' : MintedState}
    {l1 l2 : List TokenEntry} (h : runTokens sn ctx st (l1 ++ l2) = .ok st') :
    ∃ stm, runTokens sn ctx st l1 = .ok stm ∧ runTokens sn ctx stm l2 = .ok st' := by
  rw [runTokens_append] at h
  cases hp : runTokens sn ctx st l1 with
  | error m => rw [hp] at h; exact Except.noConfusion h
  | ok stm => rw [hp] at h; exact ⟨stm, rfl, h⟩

theorem runTokens_cons_ok {sn : String} {ctx : TokenList} {st st' : MintedState}
    {e : TokenEntry} {l : List TokenEntry} (h : runTokens sn ctx st (e :: l) = .ok st') :
    ∃ stm, step sn ctx st e = .ok stm ∧ runTokens sn ctx stm l = .ok st' := by
  simp only [runTokens] at h
  cases hp : step sn ctx st e with
  | error m => rw [hp] at h; exact Except.noConfusion h
  | ok stm => rw [hp] at h; exact ⟨stm, rfl, h⟩

theorem step_ok_inv {sn : String} {ctx : TokenList} {st st' : MintedState} {e : TokenEntry}
    (h : step sn ctx st e = .ok st') :
    (∃ ext, st'.hl_ranges = st.hl_ranges ++ ext)
    ∧ (∃ ext, st'.out = st.out ++ ext ∧ ext.all isLoopOpt = true)
    ∧ st'.has_start = (st.has_start || entryIsStart e)
    ∧ st'.has_end = (st.has_end || entryIsEnd e) := by
  obtain ⟨lineno, tok, args⟩ := e
  cases tok <;> simp only [step] at h
  case START =>
    split at h
    · exact Except.noConfusion h
    · injection h with h
      subst h
      refine ⟨⟨[], by simp⟩, ⟨["firstline=" ++ toString lineno], rfl, ?_⟩, by simp_all [entryIsStart], by simp [entryIsEnd]⟩
      simp [isLoopOpt, pyStartsWith_append]
  case END =>
    split at h
    · exact Except.noConfusion h
    · split at h
      all_goals injection h with h
      all_goals subst h
      · refine ⟨⟨_, rfl⟩, ⟨["lastline=" ++ toString lineno], rfl, ?_⟩, by simp [entryIsStart], by simp_all [entryIsEnd]⟩
        simp [isLoopOpt, pyStartsWith_append]
      · refine ⟨⟨[], by simp⟩, ⟨["lastline=" ++ toString lineno], rfl, ?_⟩, by simp [entryIsStart], by simp_all [entryIsEnd]⟩
        simp [isLoopOpt, pyStartsWith_append]
  case HL =>
    injection h with h
    subst h
    exact ⟨⟨_, rfl⟩, ⟨[], by simp⟩, by simp [entryIsStart], by simp [entryIsEnd]⟩
  case HL_START =>
    split at h
    · exact Except.noConfusion h
    · injection h with h
      subst h
      exact ⟨⟨[], by simp⟩, ⟨[], by simp⟩, by simp [entryIsStart], by simp [entryIsEnd]⟩
  case HL_END =>
    split at h
    · exact Except.noConfusion h
    · injection h with h
      subst h
      exact ⟨⟨_, rfl⟩, ⟨[], by simp⟩, by simp [entryIsStart], by simp [entryIsEnd]⟩
  case HL_INLINE =>
    injection h with h
    subst h
    exact ⟨⟨[], by simp⟩, ⟨["escapeinside=||"], rfl, by simp [isLoopOpt]⟩, by simp [entryIsStart], by simp [entryIsEnd]⟩
  case INLINE_REPLACE =>
    injection h with h
    subst h
    exact ⟨⟨[], by simp⟩, ⟨["escapeinside=||"], rfl, by simp [isLoopOpt]⟩, by simp [entryIsStart], by simp [entryIsEnd]⟩
  case JINJA =>
    exact Except.noConfusion h

theorem runTokens_ok_inv {sn : String} {ctx : TokenList} {st st' : MintedState}
    {l : List TokenEntry} (h : runTokens sn ctx st l = .ok st') :
    (∃ ext, st'.hl_ranges = st.hl_ranges ++ ext)
    ∧ (∃ ext, st'.out = st.out ++ ext ∧ ext.all isLoopOpt = true)
    ∧ st'.has_start = (st.has_start || l.any entryIsStart)
    ∧ st'.has_end = (st.has_end || l.any entryIsEnd) := by
  induction l generalizing st with
  | nil =>
    simp only [runTokens, Except.ok.injEq] at h
    subst h
    exact ⟨⟨[], by simp⟩, ⟨[], by simp, rfl⟩, by simp, by simp⟩
  | cons e rest ih =>
    simp only [runTokens] at h
    cases hstep : step sn ctx st e with
    | error m => rw [hstep] at h; exact Except.noConfusion h
    | ok st1 =>
      rw [hstep] at h
      obtain ⟨⟨e1, he1⟩, ⟨e2, he2, he2'⟩, h3, h4⟩ := step_ok_inv hstep
      obtain ⟨⟨f1, hf1⟩, ⟨f2, hf2, hf2'⟩, g3, g4⟩ := ih h
      refine ⟨⟨e1 ++ f1, by rw [hf1, he1, List.append_assoc]⟩,
              ⟨e2 ++ f2, by rw [hf2, he2, List.append_assoc],
               by simp [List.all_append, he2', hf2']⟩, ?_, ?_⟩
      · rw [g3, h3, List.any_cons]
        simp [Bool.or_assoc]
      · rw [g4, h4, List.any_cons]
        simp [Bool.or_assoc]

theorem runTokens_keep_hl_start {sn : String} {ctx : TokenList} {st st' : MintedState}
    {l : List TokenEntry} {A : Nat}
    (h : runTokens sn ctx st l = .ok st') (hst : st.hl_start = some A)
    (hl : ∀ e ∈ l, e.2.1 ≠ Token.HL_END ∧ e.2.1 ≠ Token.END) :
    st'.hl_start = some A := by
  induction l generalizing st with
  | nil =>
    simp only [runTokens, Except.ok.injEq] at h
    subst h
    exact hst
  | cons e rest ih =>
    simp only [runTokens] at h
    cases hstep : step sn ctx st e with
    | error m => rw [hstep] at h; exact Except.noConfusion h
    | ok st1 =>
      rw [hstep] at h
      have hmem := hl e (List.mem_cons_self _ _)
      have h1 : st1.hl_start = some A := by
        obtain ⟨lineno, tok, args⟩ := e
        cases tok <;> simp only [step] at hstep
        case START =>
          split at hstep
          · exact Except.noConfusion hstep
          · injection hstep with hstep
            subst hstep
            exact hst
        case END => exact absurd rfl hmem.2
        case HL =>
          injection hstep with hstep
          subst hstep
          exact hst
        case HL_START =>
          rw [hst] at hstep
          exact Except.noConfusion hstep
        case HL_END => exact absurd rfl hmem.1
        case HL_INLINE =>
          injection hstep with hstep
          subst hstep
          exact hst
        case INLINE_REPLACE =>
          injection hstep with hstep
          subst hstep
          exact hst
        case JINJA => exact Except.noConfusion hstep
      exact ih h h1 (fun x hx => hl x (List.mem_cons_of_mem _ hx))

theorem opts_error_of_step {tokens pre rest : TokenList} {e : TokenEntry} {sn msg : String}
    {st : MintedState}
    (htk : tokens = pre ++ e :: rest)
    (hpre : runTokens sn tokens mintedInit pre = .ok st)
    (hstep : step sn tokens st e = .error msg) :
    tokens_to_minted_opts tokens sn = .error msg := by
  have hrun : runTokens sn tokens mintedInit tokens = .error msg := by
    have hx : runTokens sn tokens mintedInit (pre ++ e :: rest) = .error msg := by
      rw [runTokens_append, hpre]
      simp only [runTokens, hstep]
    rw [← htk] at hx
    exact hx
  rw [tokens_to_minted_opts, hrun]

/-! C1: option list for the minimal stream, and emission ordering. -/

/-- Counterexample to claim C1's ordering: with a highlight on line 2 and an
inline-highlight token on line 3, the escape-enabling flag is emitted inside
the loop (right where the inline token occurs), before the trailing
`highlightlines` directive — not after it as the claimed precedence
(boundaries, then highlights, then escape flag) would give. -/
theorem c1_counterexample :
    tokens_to_minted_opts
        [(1, Token.START, []), (2, Token.HL, []), (3, Token.HL_INLINE, ["x"]), (4, Token.END, [])]
        "snip"
      = .ok ["firstline=1", "escapeinside=||", "lastline=4", "highlightlines=\x7b2\x7d"]
    ∧ (["firstline=1", "escapeinside=||", "lastline=4", "highlightlines=\x7b2\x7d"] : List String)
      ≠ ["firstline=1", "lastline=4", "highlightlines=\x7b2\x7d", "escapeinside=||"] := by
  constructor
  · rfl
  · decide

/-- Amended claim C1: a stream holding exactly one start token (line S) and
one end token (line E), the start first, yields exactly
`[firstline=S, lastline=E]`; and in general a successful run emits the
boundary and escape options in stream-encounter order (the loop's output,
every element a firstline/lastline/escapeinside option), followed by the
single joined `highlightlines` directive when any highlights accumulated. -/
theorem c1_option_emission :
    (∀ (s e : Nat) (sn : String),
      tokens_to_minted_opts [(s, Token.START, []), (e, Token.END, [])] sn
        = .ok ["firstline=" ++ toString s, "lastline=" ++ toString e])
    ∧ (∀ (tokens : TokenList) (sn : String) (out : List String),
        tokens_to_minted_opts tokens sn = .ok out →
        out = (minted_state tokens sn).out
            ++ (if (minted_state tokens sn).hl_ranges.isEmpty then []
                else [mkHighlightOpt (minted_state tokens sn).hl_ranges])
        ∧ (minted_state tokens sn).out.all isLoopOpt = true) := by
  constructor
  · intro s e sn
    rfl
  · intro tokens sn out h
    cases hr : runTokens sn tokens mintedInit tokens with
    | error m =>
      have hx : tokens_to_minted_opts tokens sn = .error m := by
        rw [tokens_to_minted_opts, hr]
      rw [hx] at h
      exact Except.noConfusion h
    | ok st =>
      have hms : minted_state tokens sn = st := by rw [minted_state, hr]
      have hx : tokens_to_minted_opts tokens sn
          = (if (!st.has_start || !st.has_end) = true then .error (missingMsg st sn tokens)
             else .ok (st.out
               ++ (if st.hl_ranges.isEmpty then [] else [mkHighlightOpt st.hl_ranges]))) := by
        rw [tokens_to_minted_opts, hr]
      rw [hx] at h
      split at h
      · exact Except.noConfusion h
      · injection h with h
        subst h
        refine ⟨by rw [hms], ?_⟩
        rw [hms]
        obtain ⟨_, ⟨ext, hout, hext⟩, _, _⟩ := runTokens_ok_inv hr
        rw [hout]
        simpa [mintedInit] using hext

/-- Witness for C1's amended theorem. -/
theorem c1_option_emission_witness :
    tokens_to_minted_opts [(3, Token.START, []), (7, Token.END, [])] "a"
      = .ok ["firstline=" ++ toString 3, "lastline=" ++ toString 7]
    ∧ (["firstline=1", "escapeinside=||", "lastline=4", "highlightlines=\x7b2\x7d"] : List String)
      = (minted_state [(1, Token.START, []), (2, Token.HL, []), (3, Token.HL_INLINE, ["y"]), (4, Token.END, [])] "b").out
        ++ (if (minted_state [(1, Token.START, []), (2, Token.HL, []), (3, Token.HL_INLINE, ["y"]), (4, Token.END, [])] "b").hl_ranges.isEmpty then []
            else [mkHighlightOpt ((minted_state [(1, Token.START, []), (2, Token.HL, []), (3, Token.HL_INLINE, ["y"]), (4, Token.END, [])] "b").hl_ranges)])
    ∧ (minted_state [(1, Token.START, []), (2, Token.HL, []), (3, Token.HL_INLINE, ["y"]), (4, Token.END, [])] "b").out.all isLoopOpt = true :=
  ⟨c1_option_emission.1 3 7 "a",
   (c1_option_emission.2
     [(1, Token.START, []), (2, Token.HL, []), (3, Token.HL_INLINE, ["y"]), (4, Token.END, [])] "b"
     ["firstline=1", "escapeinside=||", "lastline=4", "highlightlines=\x7b2\x7d"] rfl).1,
   (c1_option_emission.2
     [(1, Token.START, []), (2, Token.HL, []), (3, Token.HL_INLINE, ["y"]), (4, Token.END, [])] "b"
     ["firstline=1", "escapeinside=||", "lastline=4", "highlightlines=\x7b2\x7d"] rfl).2⟩

/-! C5: implicit close of an open highlight at the end boundary. -/

/-- Claim C5: a highlight-range-start at line A with no highlight-range-end
and no end boundary before the end token at line B: on a successful run the
machine records the range `A-B`, and the emitted options carry the
`highlightlines` directive built from the recorded ranges. -/
theorem c5_implicit_close (tokens pre mid post : TokenList) (A B : Nat)
    (aargs bargs : List String) (sn : String) (opts : List String)
    (htk : tokens = pre ++ (A, Token.HL_START, aargs) :: (mid ++ (B, Token.END, bargs) :: post))
    (hmid : ∀ e ∈ mid, e.2.1 ≠ Token.HL_END ∧ e.2.1 ≠ Token.END)
    (hrun : tokens_to_minted_opts tokens sn = .ok opts) :
    hlRangeStr A B ∈ (minted_state tokens sn).hl_ranges
    ∧ mkHighlightOpt ((minted_state tokens sn).hl_ranges) ∈ opts := by
  cases hr : runTokens sn tokens mintedInit tokens with
  | error m =>
    have hx : tokens_to_minted_opts tokens sn = .error m := by
      rw [tokens_to_minted_opts, hr]
    rw [hx] at hrun
    exact Except.noConfusion hrun
  | ok st =>
    have hms : minted_state tokens sn = st := by rw [minted_state, hr]
    have hr2 : runTokens sn tokens mintedInit
        (pre ++ (A, Token.HL_START, aargs) :: (mid ++ (B, Token.END, bargs) :: post))
        = .ok st := by
      rw [← htk]
      exact hr
    obtain ⟨st0, hp, hrest⟩ := runTokens_append_ok hr2
    obtain ⟨st1, hstep, hrest2⟩ := runTokens_cons_ok hrest
    have hst1 : st1.hl_start = some A := by
      simp only [step] at hstep
      split at hstep
      · exact Except.noConfusion hstep
      · injection hstep with hstep
        subst hstep
        rfl
    obtain ⟨st2, hm, hrest3⟩ := runTokens_append_ok hrest2
    have hst2 : st2.hl_start = some A := runTokens_keep_hl_start hm hst1 hmid
    obtain ⟨st3, hstep2, hrest4⟩ := runTokens_cons_ok hrest3
    have hst3 : st3.hl_ranges = st2.hl_ranges ++ [hlRangeStr A B] := by
      simp only [step, hst2] at hstep2
      split at hstep2
      · exact Except.noConfusion hstep2
      · injection hstep2 with hstep2
        subst hstep2
        rfl
    have hmem : hlRangeStr A B ∈ st.hl_ranges := by
      obtain ⟨⟨ext, hext⟩, _, _, _⟩ := runTokens_ok_inv hrest4
      rw [hext, hst3]
      simp
    refine ⟨by rw [hms]; exact hmem, ?_⟩
    rw [hms]
    have hx : tokens_to_minted_opts tokens sn
        = (if (!st.has_start || !st.has_end) = true then .error (missingMsg st sn tokens)
           else .ok (st.out
             ++ (if st.hl_ranges.isEmpty then [] else [mkHighlightOpt st.hl_ranges]))) := by
      rw [tokens_to_minted_opts, hr]
    rw [hx] at hrun
    split at hrun
    · exact Except.noConfusion hrun
    · injection hrun with hrun
      subst hrun
      have hne : st.hl_ranges.isEmpty = false := by
        cases hranges : st.hl_ranges with
        | nil => rw [hranges] at hmem; cases hmem
        | cons a b => rfl
      rw [hne]
      simp

/-- Witness for C5. -/
theorem c5_implicit_close_witness :
    hlRangeStr 2 4 ∈ (minted_state [(1, Token.START, []), (2, Token.HL_START, []), (4, Token.END, [])] "a").hl_ranges
    ∧ mkHighlightOpt ((minted_state [(1, Token.START, []), (2, Token.HL_START, []), (4, Token.END, [])] "a").hl_ranges)
      ∈ ["firstline=1", "lastline=4", mkHighlightOpt [hlRangeStr 2 4]] :=
  c5_implicit_close
    [(1, Token.START, []), (2, Token.HL_START, []), (4, Token.END, [])]
    [(1, Token.START, [])] [] [] 2 4 [] [] "a"
    ["firstline=1", "lastline=4", mkHighlightOpt [hlRangeStr 2 4]]
    rfl (by simp) rfl

/-! C6: boundary multiplicity and the terminal completeness check. -/

/-- Claim C6: a start or end token reached while the same boundary was
already seen fails with the duplicate-boundary error; a run that consumes
the whole stream with a missing boundary fails with the missing-token error
naming exactly the missing side(s); and the seen-flags match the presence
of boundary entries in the consumed stream. -/
theorem c6_boundary_uniqueness :
    (∀ (tokens pre rest : TokenList) (l : Nat) (args : List String) (sn : String)
        (st : MintedState),
      tokens = pre ++ (l, Token.START, args) :: rest →
      runTokens sn tokens mintedInit pre = .ok st →
      st.has_start = true →
      tokens_to_minted_opts tokens sn
        = .error ("Multiple start tokens for " ++ sn ++ " in:\n" ++ format_token_list tokens))
    ∧ (∀ (tokens pre rest : TokenList) (l : Nat) (args : List String) (sn : String)
        (st : MintedState),
      tokens = pre ++ (l, Token.END, args) :: rest →
      runTokens sn tokens mintedInit pre = .ok st →
      st.has_end = true →
      tokens_to_minted_opts tokens sn
        = .error ("Multiple end tokens for " ++ sn ++ " in:\n" ++ format_token_list tokens))
    ∧ (∀ (tokens : TokenList) (sn : String) (st : MintedState),
      runTokens sn tokens mintedInit tokens = .ok st →
      st.has_start = false ∨ st.has_end = false →
      tokens_to_minted_opts tokens sn = .error (missingMsg st sn tokens))
    ∧ (∀ (tokens l : TokenList) (sn : String) (st : MintedState),
      runTokens sn tokens mintedInit l = .ok st →
      st.has_start = l.any entryIsStart ∧ st.has_end = l.any entryIsEnd) := by
  refine ⟨?_, ?_, ?_, ?_⟩
  · intro tokens pre rest l args sn st htk hpre hst
    exact opts_error_of_step htk hpre (by simp [step, hst])
  · intro tokens pre rest l args sn st htk hpre hst
    exact opts_error_of_step htk hpre (by simp [step, hst])
  · intro tokens sn st hr hmiss
    rw [tokens_to_minted_opts, hr]
    have hcond : (!st.has_start || !st.has_end) = true := by
      rcases hmiss with hm | hm <;> simp [hm]
    simp only [hcond, if_true]
  · intro tokens l sn st hr
    obtain ⟨_, _, h3, h4⟩ := runTokens_ok_inv hr
    constructor
    · rw [h3]; rfl
    · rw [h4]; rfl

/-- Witness for C6. -/
theorem c6_boundary_uniqueness_witness :
    tokens_to_minted_opts [(1, Token.START, []), (2, Token.START, [])] "a"
      = .error ("Multiple start tokens for " ++ "a" ++ " in:\n"
          ++ format_token_list [(1, Token.START, []), (2, Token.START, [])])
    ∧ tokens_to_minted_opts [(1, Token.END, []), (2, Token.END, [])] "a"
      = .error ("Multiple end tokens for " ++ "a" ++ " in:\n"
          ++ format_token_list [(1, Token.END, []), (2, Token.END, [])])
    ∧ tokens_to_minted_opts [(1, Token.HL, [])] "a"
      = .error (missingMsg ⟨none, ["1"], false, false, []⟩ "a" [(1, Token.HL, [])])
    ∧ (⟨none, [], true, true, ["firstline=1", "lastline=2"]⟩ : MintedState).has_start
        = [(1, Token.START, []), (2, Token.END, [])].any entryIsStart
    ∧ (⟨none, [], true, true, ["firstline=1", "lastline=2"]⟩ : MintedState).has_end
        = [(1, Token.START, []), (2, Token.END, [])].any entryIsEnd :=
  ⟨c6_boundary_uniqueness.1 _ [(1, Token.START, [])] [] 2 [] "a"
      ⟨none, [], true, false, ["firstline=1"]⟩ rfl rfl rfl,
   c6_boundary_uniqueness.2.1 _ [(1, Token.END, [])] [] 2 [] "a"
      ⟨none, [], false, true, ["lastline=1"]⟩ rfl rfl rfl,
   c6_boundary_uniqueness.2.2.1 [(1, Token.HL, [])] "a"
      ⟨none, ["1"], false, false, []⟩ rfl (Or.inl rfl),
   (c6_boundary_uniqueness.2.2.2 [(1, Token.START, []), (2, Token.END, [])]
      [(1, Token.START, []), (2, Token.END, [])] "a"
      ⟨none, [], true, true, ["firstline=1", "lastline=2"]⟩ rfl).1,
   (c6_boundary_uniqueness.2.2.2 [(1, Token.START, []), (2, Token.END, [])]
      [(1, Token.START, []), (2, Token.END, [])] "a"
      ⟨none, [], true, true, ["firstline=1", "lastline=2"]⟩ rfl).2⟩

/-! C7: highlight-range balance. -/

/-- Claim C7: a highlight-range-start while one is open fails with the
nested-highlight error; a highlight-range-end with none open fails with the
unmatched-end error; a highlight-range-end with one open appends the range
`(open_line)-(current_line)` and clears the open state. -/
theorem c7_highlight_balance :
    (∀ (tokens pre rest : TokenList) (l x : Nat) (args : List String) (sn : String)
        (st : MintedState),
      tokens = pre ++ (l, Token.HL_START, args) :: rest →
      runTokens sn tokens mintedInit pre = .ok st →
      st.hl_start = some x →
      tokens_to_minted_opts tokens sn
        = .error ("Nested highlight start at line " ++ toString l))
    ∧ (∀ (tokens pre rest : TokenList) (l : Nat) (args : List String) (sn : String)
        (st : MintedState),
      tokens = pre ++ (l, Token.HL_END, args) :: rest →
      runTokens sn tokens mintedInit pre = .ok st →
      st.hl_start = none →
      tokens_to_minted_opts tokens sn
        = .error ("Unmatched highlight end at line " ++ toString l))
    ∧ (∀ (sn : String) (ctx : TokenList) (st : MintedState) (l x : Nat) (args : List String),
      st.hl_start = some x →
      step sn ctx st (l, Token.HL_END, args)
        = .ok { st with hl_ranges := st.hl_ranges ++ [hlRangeStr x l], hl_start := none }) := by
  refine ⟨?_, ?_, ?_⟩
  · intro tokens pre rest l x args sn st htk hpre hst
    exact opts_error_of_step htk hpre (by simp [step, hst])
  · intro tokens pre rest l args sn st htk hpre hst
    exact opts_error_of_step htk hpre (by simp [step, hst])
  · intro sn ctx st l x args hst
    simp [step, hst]

/-! Lemmas about substring containment and Python replace. -/

theorem containsSubstrL_sandwich (a x b : List Char) :
    containsSubstrL x (a ++ x ++ b) = true := by
  induction a with
  | nil =>
    simp only [List.nil_append]
    cases x with
    | nil =>
      cases b with
      | nil => rfl
      | cons c cb => rfl
    | cons cx xs =>
      simp only [List.cons_append, containsSubstrL]
      have hpre : (cx :: xs).isPrefixOf (cx :: (xs ++ b)) = true := by
        rw [List.isPrefixOf_iff_prefix]
        exact ⟨b, by simp⟩
      simp [hpre]
  | cons c a2 ih =>
    simp only [List.cons_append, containsSubstrL, List.append_eq, ih, Bool.or_true]

theorem containsSubstr_intro {s x : String} (p q : List Char) (h : p ++ x.data ++ q = s.data) :
    containsSubstr s x = true := by
  have hx : containsSubstrL x.data s.data = true := by
    rw [← h]
    exact containsSubstrL_sandwich p x.data q
  exact hx

theorem replaceAllGo_of_not_contains {pat : List Char} (rep : List Char) :
    ∀ (fuel : Nat) (l : List Char), containsSubstrL pat l = false →
    replaceAllGo pat rep fuel l = l := by
  intro fuel
  induction fuel with
  | zero => intro l h; cases l <;> rfl
  | succ f ih =>
    intro l h
    cases l with
    | nil => rfl
    | cons c rest =>
      simp only [containsSubstrL, Bool.or_eq_false_iff] at h
      rw [replaceAllGo, if_neg (by simp [h.1]), ih rest h.2]

theorem pyReplace_of_not_contains {code s r : String} (hne : s.data ≠ [])
    (h : containsSubstr code s = false) : pyReplace code s r = code := by
  have hie : s.data.isEmpty = false := by
    cases hsd : s.data with
    | nil => exact absurd hsd hne
    | cons a b => rfl
  rw [pyReplace, if_neg (by simp [hie]),
    replaceAllGo_of_not_contains r.data code.data.length code.data h]

theorem replaceAllGo_fuel {pat rep : List Char} (hp : pat ≠ []) :
    ∀ (f1 : Nat) (l : List Char) (f2 : Nat), l.length ≤ f1 → l.length ≤ f2 →
    replaceAllGo pat rep f1 l = replaceAllGo pat rep f2 l := by
  intro f1
  induction f1 with
  | zero =>
    intro l f2 h1 h2
    have hl : l = [] := List.eq_nil_of_length_eq_zero (Nat.le_zero.mp h1)
    subst hl
    cases f2 <;> rfl
  | succ f ih =>
    intro l f2 h1 h2
    cases l with
    | nil => cases f2 <;> rfl
    | cons c rest =>
      cases f2 with
      | zero => simp at h2
      | succ f2p =>
        have hplen : 0 < pat.length := List.length_pos.mpr hp
        simp only [replaceAllGo]
        by_cases hpre : pat.isPrefixOf (c :: rest) = true
        · rw [if_pos hpre, if_pos hpre]
          have hlen : ((c :: rest).drop pat.length).length ≤ f := by
            simp only [List.length_drop, List.length_cons]
            simp only [List.length_cons] at h1
            omega
          have hlen2 : ((c :: rest).drop pat.length).length ≤ f2p := by
            simp only [List.length_drop, List.length_cons]
            simp only [List.length_cons] at h2
            omega
          rw [ih _ _ hlen hlen2]
        · rw [if_neg hpre, if_neg hpre]
          have hlen : rest.length ≤ f := by
            simp only [List.length_cons] at h1
            omega
          have hlen2 : rest.length ≤ f2p := by
            simp only [List.length_cons] at h2
            omega
          rw [ih _ _ hlen hlen2]

theorem pyReplace_head (s rest r : String) (hne : s.data ≠ []) :
    pyReplace (s ++ rest) s r = r ++ pyReplace rest s r := by
  have hie : s.data.isEmpty = false := by
    cases hsd : s.data with
    | nil => exact absurd hsd hne
    | cons a b => rfl
  rw [pyReplace, pyReplace, if_neg (by simp [hie]), if_neg (by simp [hie])]
  apply String.ext
  show replaceAllGo s.data r.data (s ++ rest).data.length (s ++ rest).data
      = r.data ++ replaceAllGo s.data r.data rest.data.length rest.data
  obtain ⟨c, cs, hs⟩ : ∃ c cs, s.data = c :: cs := by
    cases hsd : s.data with
    | nil => exact absurd hsd hne
    | cons a b => exact ⟨a, b, rfl⟩
  rw [data_append, hs]
  have hF : ((c :: cs) ++ rest.data).length = (cs ++ rest.data).length + 1 := by simp
  rw [hF, List.cons_append, replaceAllGo]
  have hpre : (c :: cs).isPrefixOf (c :: (cs ++ rest.data)) = true := by
    rw [List.isPrefixOf_iff_prefix]
    exact ⟨rest.data, by simp⟩
  rw [if_pos hpre]
  congr 1
  have hdrop : (c :: (cs ++ rest.data)).drop (c :: cs).length = rest.data := by
    rw [← List.cons_append]
    exact List.drop_left (c :: cs) rest.data
  rw [hdrop]
  exact replaceAllGo_fuel (List.cons_ne_nil c cs) (cs ++ rest.data).length rest.data
    rest.data.length (by simp) (Nat.le_refl _)

/-! C3: clause validation errors. -/

/-- Counterexample to claim C3: the unknown-token error message names only
the symbol — the line number (and the expected/actual argument counts) the
claim requires do not appear in it. -/
theorem c3_counterexample :
    validate_token_clause "xx" [] 5 = .error "Unknown token: xx"
    ∧ containsSubstr "Unknown token: xx" "5" = false := by
  exact ⟨rfl, rfl⟩

/-- Amended claim C3: an unrecognized token symbol fails with an error naming
the symbol only; a recognized token with a mismatched argument count (2 for
INLINE_REPLACE, 1 for HL_INLINE, 0 otherwise) fails with an error whose
message carries the line number, the token, and the expected and actual
argument counts; a matching count is accepted. -/
theorem c3_annotation_validation :
    (∀ (s : String) (args : List String) (lineno : Nat),
      Token.fromStr? s = none →
      validate_token_clause s args lineno = .error ("Unknown token: " ++ s))
    ∧ (∀ (s : String) (t : Token) (args : List String) (lineno : Nat),
      Token.fromStr? s = some t →
      args.length ≠ token_arg_count t →
      validate_token_clause s args lineno = .error (arity_error_msg t args lineno)
      ∧ containsSubstr (arity_error_msg t args lineno) (toString lineno) = true
      ∧ containsSubstr (arity_error_msg t args lineno) (toString (token_arg_count t)) = true
      ∧ containsSubstr (arity_error_msg t args lineno) (toString args.length) = true
      ∧ containsSubstr (arity_error_msg t args lineno) t.pyStr = true)
    ∧ (∀ (s : String) (t : Token) (args : List String) (lineno : Nat),
      Token.fromStr? s = some t →
      args.length = token_arg_count t →
      validate_token_clause s args lineno = .ok t) := by
  refine ⟨?_, ?_, ?_⟩
  · intro s args lineno h
    rw [validate_token_clause, h]
  · intro s t args lineno hf hne
    refine ⟨?_, ?_, ?_, ?_, ?_⟩
    · rw [validate_token_clause, hf]
      show (if (args.length != token_arg_count t) = true
            then Except.error (arity_error_msg t args lineno) else Except.ok t)
          = Except.error (arity_error_msg t args lineno)
      rw [if_pos (by simp [hne])]
    · exact containsSubstr_intro
        ("Expected " ++ toString (token_arg_count t) ++ " arguments for " ++ t.pyStr
          ++ ", but got " ++ toString args.length ++ ": " ++ pyReprList args ++ " (line ").data
        ")".data
        (by simp [arity_error_msg, data_append, List.append_assoc])
    · exact containsSubstr_intro
        ("Expected ").data
        ((" arguments for " ++ t.pyStr ++ ", but got " ++ toString args.length ++ ": "
          ++ pyReprList args ++ " (line " ++ toString lineno ++ ")").data)
        (by simp [arity_error_msg, data_append, List.append_assoc])
    · exact containsSubstr_intro
        ("Expected " ++ toString (token_arg_count t) ++ " arguments for " ++ t.pyStr
          ++ ", but got ").data
        ((": " ++ pyReprList args ++ " (line " ++ toString lineno ++ ")").data)
        (by simp [arity_error_msg, data_append, List.append_assoc])
    · exact containsSubstr_intro
        ("Expected " ++ toString (token_arg_count t) ++ " arguments for ").data
        ((", but got " ++ toString args.length ++ ": " ++ pyReprList args ++ " (line "
          ++ toString lineno ++ ")").data)
        (by simp [arity_error_msg, data_append, List.append_assoc])
  · intro s t args lineno hf he
    rw [validate_token_clause, hf]
    show (if (args.length != token_arg_count t) = true
          then Except.error (arity_error_msg t args lineno) else Except.ok t)
        = Except.ok t
    rw [if_neg (by simp [he])]

/-- Witness for C3's amended theorem. -/
theorem c3_annotation_validation_witness :
    validate_token_clause "zz" ["a"] 3 = .error ("Unknown token: " ++ "zz")
    ∧ validate_token_clause "||" [] 7 = .error (arity_error_msg Token.HL_INLINE [] 7)
    ∧ containsSubstr (arity_error_msg Token.HL_INLINE [] 7) (toString 7) = true
    ∧ containsSubstr (arity_error_msg Token.HL_INLINE [] 7)
        (toString (token_arg_count Token.HL_INLINE)) = true
    ∧ containsSubstr (arity_error_msg Token.HL_INLINE [] 7)
        (toString ([] : List String).length) = true
    ∧ containsSubstr (arity_error_msg Token.HL_INLINE [] 7) Token.HL_INLINE.pyStr = true
    ∧ validate_token_clause "s/" ["a", "b"] 9 = .ok Token.INLINE_REPLACE :=
  ⟨c3_annotation_validation.1 "zz" ["a"] 3 rfl,
   (c3_annotation_validation.2.1 "||" Token.HL_INLINE [] 7 rfl (by decide)).1,
   (c3_annotation_validation.2.1 "||" Token.HL_INLINE [] 7 rfl (by decide)).2.1,
   (c3_annotation_validation.2.1 "||" Token.HL_INLINE [] 7 rfl (by decide)).2.2.1,
   (c3_annotation_validation.2.1 "||" Token.HL_INLINE [] 7 rfl (by decide)).2.2.2.1,
   (c3_annotation_validation.2.1 "||" Token.HL_INLINE [] 7 rfl (by decide)).2.2.2.2,
   c3_annotation_validation.2.2 "s/" Token.INLINE_REPLACE ["a", "b"] 9 rfl rfl⟩

/-! C4: the inline highlight transform. -/

/-- Counterexample to claim C4: `str.replace` substitutes every occurrence,
so a line holding the search twice gets two highlight boxes, not "a single
occurrence" wrapped. -/
theorem c4_counterexample :
    apply_inline_token remTriv 1 "x = x" (Token.HL_INLINE, ["x"])
      = .ok "|\\highlightbox\x7bx\x7d| = |\\highlightbox\x7bx\x7d|"
    ∧ ("|\\highlightbox\x7bx\x7d| = |\\highlightbox\x7bx\x7d|" : String)
      ≠ "|\\highlightbox\x7bx\x7d| = x"
    ∧ ("|\\highlightbox\x7bx\x7d| = |\\highlightbox\x7bx\x7d|" : String)
      ≠ "x = |\\highlightbox\x7bx\x7d|" := by
  exact ⟨rfl, by decide, by decide⟩

/-- Amended claim C4: for a literal (non `/.../`-shaped) search present in
the line, HIGHLIGHT_INLINE wraps every non-overlapping occurrence, left to
right, in the highlight-box directive with the matched text escaped by the
fixed `totex` table; an absent search fails with the not-found error.  The
last two parts pin down the replace-all scan: an occurrence-free text is
returned unchanged, and a text starting with the search has that occurrence
replaced and the scan continue after it. -/
theorem c4_inline_highlight :
    (∀ (rem : ReModule) (code search : String) (lineno : Nat),
      (pyStartsWith search "/" && pyEndsWith search "/") = false →
      containsSubstr code search = true →
      apply_inline_token rem lineno code (Token.HL_INLINE, [search])
        = .ok (pyReplace code search (hl_inline_replacement search)))
    ∧ (∀ (rem : ReModule) (code search : String) (lineno : Nat),
      (pyStartsWith search "/" && pyEndsWith search "/") = false →
      containsSubstr code search = false →
      apply_inline_token rem lineno code (Token.HL_INLINE, [search])
        = .error (notFoundMsg search code lineno))
    ∧ (∀ (code s r : String), s.data ≠ [] → containsSubstr code s = false →
      pyReplace code s r = code)
    ∧ (∀ (s rest r : String), s.data ≠ [] →
      pyReplace (s ++ rest) s r = r ++ pyReplace rest s r) := by
  refine ⟨?_, ?_, ?_, ?_⟩
  · intro rem code search lineno hshape hin
    rw [apply_inline_token, search_replace_code, if_neg (by simp [hshape]),
      if_neg (by simp [hin])]
  · intro rem code search lineno hshape hout
    rw [apply_inline_token, search_replace_code, if_neg (by simp [hshape]),
      if_pos (by simp [hout])]
  · intro code s r hne h
    exact pyReplace_of_not_contains hne h
  · intro s rest r hne
    exact pyReplace_head s rest r hne

/-- Witness for C4's amended theorem. -/
theorem c4_inline_highlight_witness :
    apply_inline_token remTriv 2 "y = x + 1" (Token.HL_INLINE, ["x"])
      = .ok (pyReplace "y = x + 1" "x" (hl_inline_replacement "x"))
    ∧ apply_inline_token remTriv 2 "y = 1" (Token.HL_INLINE, ["x"])
      = .error (notFoundMsg "x" "y = 1" 2)
    ∧ pyReplace "abc" "x" "Q" = "abc"
    ∧ pyReplace ("ab" ++ "cd") "ab" "Q" = "Q" ++ pyReplace "cd" "ab" "Q" :=
  ⟨c4_inline_highlight.1 remTriv "y = x + 1" "x" 2 rfl rfl,
   c4_inline_highlight.2.1 remTriv "y = 1" "x" 2 rfl rfl,
   c4_inline_highlight.2.2.1 "abc" "x" "Q" (by decide) rfl,
   c4_inline_highlight.2.2.2 "ab" "cd" "Q" (by decide)⟩

/-! C2: exercise-marker resolution per output variant. -/

/-- Counterexample to claim C2: under SELFTEST, `process_file` keeps an
exercise-marker line verbatim (the code sets its `solution` flag from
`output_type == SOLUTION` only), instead of resolving it to the solution
form as the claimed "SELFTEST implies SOLUTION" contract demands. -/
theorem c2_counterexample :
    process_file renderId ".py" "# exercise: [foo]" OutputType.SELFTEST
      = .ok (some "# exercise: [foo]\n")
    ∧ ("# exercise: [foo]\n" : String) ≠ "# solution: [foo]\n" := by
  exact ⟨rfl, by decide⟩

/-- Amended claim C2: exercise-marker lines resolve to their solution form
only for the SOLUTION output variant and are kept verbatim for CODE, SLIDE
and SELFTEST; the templating context variable `solution`, in contrast, is
true for both SOLUTION and SELFTEST (and false otherwise). -/
theorem c2_exercise_marker_resolution :
    (∀ (lineno : Nat) (code label : String),
      clean_parsed_line OutputType.SOLUTION (ParsedLine.exerciseMarker lineno code label)
        = pyReplace code "exercise:" "solution:")
    ∧ (∀ (ot : OutputType) (lineno : Nat) (code label : String), ot ≠ OutputType.SOLUTION →
      clean_parsed_line ot (ParsedLine.exerciseMarker lineno code label) = code)
    ∧ jinja_solution_var OutputType.SOLUTION = true
    ∧ jinja_solution_var OutputType.SELFTEST = true
    ∧ jinja_solution_var OutputType.CODE = false
    ∧ jinja_solution_var OutputType.SLIDE = false := by
  refine ⟨?_, ?_, rfl, rfl, rfl, rfl⟩
  · intro lineno code label
    rfl
  · intro ot lineno code label h
    have hb : (ot == OutputType.SOLUTION) = false := by
      cases ot <;> simp_all
    simp [clean_parsed_line, isExerciseMarker, hb, ParsedLine.code]

/-- Witness for C2's amended theorem. -/
theorem c2_exercise_marker_resolution_witness :
    clean_parsed_line OutputType.SOLUTION (ParsedLine.exerciseMarker 1 "# exercise: [x]" "x")
      = pyReplace "# exercise: [x]" "exercise:" "solution:"
    ∧ clean_parsed_line OutputType.SELFTEST (ParsedLine.exerciseMarker 1 "# exercise: [x]" "x")
      = "# exercise: [x]" :=
  ⟨c2_exercise_marker_resolution.1 1 "# exercise: [x]" "x",
   c2_exercise_marker_resolution.2.1 OutputType.SELFTEST 1 "# exercise: [x]" "x" (by decide)⟩

/-! C8: the jinja gate. -/

theorem jinja_go_plain {ls : List String}
    (h : ls.all (fun l => !(is_marker_line l) && !(is_stray_line l)) = true) (n : Nat) :
    jinja_go n ls = .ok (ls, false) := by
  induction ls generalizing n with
  | nil => rfl
  | cons l rest ih =>
    simp only [List.all_cons, Bool.and_eq_true, Bool.not_eq_true'] at h
    obtain ⟨⟨hm, hs⟩, hrest⟩ := h
    have hcond : (pyStartsWith (pyStrip l) "#" && has_jinja_syntax l) = false := by
      simp only [is_stray_line, hm, Bool.not_false, Bool.true_and] at hs
      exact hs
    have hrest' : rest.all (fun l => !(is_marker_line l) && !(is_stray_line l)) = true := by
      simp only [List.all_eq_true, Bool.and_eq_true, Bool.not_eq_true']
      intro x hx
      have := List.all_eq_true.mp hrest x hx
      simpa [Bool.and_eq_true, Bool.not_eq_true'] using this
    rw [jinja_go, if_neg (by simp [hm]), if_neg (by simp [hcond]), ih hrest']

theorem jinja_go_skip {xs : List String} (hxs : xs.all (fun l => !(is_stray_line l)) = true)
    {ys : List String} {n : Nat} {msg : String}
    (h : jinja_go (n + xs.length) ys = .error msg) :
    jinja_go n (xs ++ ys) = .error msg := by
  induction xs generalizing n with
  | nil => simpa using h
  | cons x rest ih =>
    simp only [List.all_cons, Bool.and_eq_true, Bool.not_eq_true'] at hxs
    obtain ⟨hx, hrest⟩ := hxs
    have hh : jinja_go (n + 1 + rest.length) ys = .error msg := by
      have harith : n + 1 + rest.length = n + (x :: rest).length := by
        simp only [List.length_cons]
        omega
      rw [harith]
      exact h
    have hrest' : rest.all (fun l => !(is_stray_line l)) = true := by
      simp only [List.all_eq_true, Bool.not_eq_true']
      intro y hy
      have := List.all_eq_true.mp hrest y hy
      simpa [Bool.not_eq_true'] using this
    have hrec := ih hrest' hh
    by_cases hm : is_marker_line x = true
    · rw [List.cons_append, jinja_go, if_pos hm, hrec]
    · have hcond : (pyStartsWith (pyStrip x) "#" && has_jinja_syntax x) = false := by
        simp only [is_stray_line, hm] at hx
        simpa using hx
      rw [List.cons_append, jinja_go, if_neg hm, if_neg (by simp [hcond]), hrec]

/-- Claim C8: a file none of whose lines bears the marker prefix (and none
of whose comment lines strays into jinja delimiters) is returned unmodified
by `read_code` whatever render engine is supplied — the engine is never
invoked; and the first comment line holding jinja delimiters without the
marker prefix aborts with the stray-syntax error carrying its 1-based line
number. -/
theorem c8_jinja_gate :
    (∀ (code : String) (render : String → OutputType → String) (suffix : String)
        (ot : OutputType),
      (pySplitlines code).all (fun l => !(is_marker_line l) && !(is_stray_line l)) = true →
      jinja_prepare code = .ok none ∧ read_code render suffix code ot = .ok code)
    ∧ (∀ (code line : String) (pre rest : List String),
      pySplitlines code = pre ++ line :: rest →
      pre.all (fun l => !(is_stray_line l)) = true →
      is_stray_line line = true →
      jinja_prepare code
        = .error ("Stray jinja syntax on line " ++ toString (pre.length + 1) ++ ": " ++ line)) := by
  constructor
  · intro code render suffix ot h
    have hprep : jinja_prepare code = .ok none := by
      rw [jinja_prepare, jinja_go_plain h 1]
      rfl
    refine ⟨hprep, ?_⟩
    rw [read_code]
    by_cases hj : use_jinja suffix = true
    · rw [if_pos hj, hprep]
    · rw [if_neg hj]
  · intro code line pre rest hsplit hpre hstray
    have hx := hstray
    simp only [is_stray_line, Bool.and_eq_true, Bool.not_eq_true'] at hx
    obtain ⟨⟨hm, hsh⟩, hhj⟩ := hx
    have herr : jinja_go (1 + pre.length) (line :: rest)
        = .error ("Stray jinja syntax on line " ++ toString (1 + pre.length) ++ ": " ++ line) := by
      rw [jinja_go, if_neg (by simp [hm]), if_pos (by simp [hsh, hhj])]
    have hskip := jinja_go_skip hpre herr
    rw [jinja_prepare, hsplit, hskip, Nat.add_comm 1 pre.length]

/-- Witness for C8. -/
theorem c8_jinja_gate_witness :
    jinja_prepare "a = 1\nb = 2\n" = .ok none
    ∧ read_code renderId ".py" "a = 1\nb = 2\n" OutputType.CODE = .ok "a = 1\nb = 2\n"
    ∧ jinja_prepare "x\n# \x7b\x7b y"
      = .error ("Stray jinja syntax on line "
          ++ toString ((["x"] : List String).length + 1) ++ ": " ++ "# \x7b\x7b y") :=
  ⟨(c8_jinja_gate.1 "a = 1\nb = 2\n" renderId ".py" OutputType.CODE (by decide)).1,
   (c8_jinja_gate.1 "a = 1\nb = 2\n" renderId ".py" OutputType.CODE (by decide)).2,
   c8_jinja_gate.2 "x\n# \x7b\x7b y" "# \x7b\x7b y" ["x"] [] rfl (by decide) (by decide)⟩

/-- Witness for C7. -/
theorem c7_highlight_balance_witness :
    tokens_to_minted_opts [(1, Token.HL_START, []), (2, Token.HL_START, [])] "a"
      = .error ("Nested highlight start at line " ++ toString 2)
    ∧ tokens_to_minted_opts [(1, Token.HL_END, [])] "a"
      = .error ("Unmatched highlight end at line " ++ toString 1)
    ∧ step "a" [] ⟨some 3, [], true, false, ["firstline=1"]⟩ (5, Token.HL_END, [])
      = .ok ⟨none, [hlRangeStr 3 5], true, false, ["firstline=1"]⟩ :=
  ⟨c7_highlight_balance.1 _ [(1, Token.HL_START, [])] [] 2 1 [] "a"
      ⟨some 1, [], false, false, []⟩ rfl rfl rfl,
   c7_highlight_balance.2.1 _ [] [] 1 [] "a" mintedInit rfl rfl rfl,
   c7_highlight_balance.2.2 "a" [] ⟨some 3, [], true, false, ["firstline=1"]⟩ 5 3 [] rfl⟩

end MintedExtract
